import Mathlib

/-
Shallow embedding of the `caffe-menu` Django application (apps `cafe_menu`
and `menu`) and proofs about it.

Conventions used throughout:
* request paths and produced URLs are modelled as `List Char` (Python
  strings); concrete examples use `String.data` to write them readably;
* the two `Decimal` columns of `MenuItem` are modelled at their declared
  precision: `price` (2 decimal places) is an `Int` counted in hundredths,
  `rating` (1 decimal place) an `Int` counted in tenths, so `5.0 = 50`;
* database tables are Lean lists of structure values, a row's primary key
  being an explicit `id : Nat` field; `ORDER BY` is modelled with
  `List.insertionSort`;
* the process-wide cache is an association list from keys to a stored
  `SiteSetting` value together with the timeout passed to `cache.set`.
-/

namespace CafeMenu

/-! Path helpers, embedding `menu/context_processors.py::_language_paths`. -/

/-- Character test used by `lstrip("/")` / `strip("/")`. -/
def isSlash (c : Char) : Bool := c == '/'

/-- Embeds Python `s.split("/", 1)`: the characters before the first `'/'`,
and `some` of the characters after it when a `'/'` occurs at all. -/
def splitFirst : List Char → List Char × Option (List Char)
  | [] => ([], none)
  | c :: cs =>
    if c == '/' then ([], some cs)
    else
      let r := splitFirst cs
      (c :: r.1, r.2)

/-- Embeds Python `s.lstrip("/")`: drops every leading slash. -/
def lstripSlashes (l : List Char) : List Char := l.dropWhile isSlash

/-- Drops every trailing slash (the right half of Python `s.strip("/")`). -/
def rstripSlashes (l : List Char) : List Char := (l.reverse.dropWhile isSlash).reverse

/-- Embeds Python `s.strip("/")`: drops slashes at both ends. -/
def stripSlashes (l : List Char) : List Char := lstripSlashes (rstripSlashes l)

/-- The "remainder" path computed inside `_language_paths`: the request path
with the optional leading language prefix removed, stripped of surrounding
slashes.  `langs` is the list of configured language codes
(`settings.LANGUAGES`, codes only).  Follows the source line by line:
`path = request.path_info or "/"`, `trimmed = path.lstrip("/")`,
`parts = trimmed.split("/", 1) if trimmed else []`, then the
`parts and parts[0] in language_codes` branch and `remainder.strip("/")`. -/
def remainderOf (langs : List (List Char)) (path : List Char) : List Char :=
  let p := if path = [] then ['/'] else path
  let trimmed := lstripSlashes p
  let parts := splitFirst trimmed
  let rem := if trimmed ≠ [] ∧ parts.1 ∈ langs then parts.2.getD [] else trimmed
  stripSlashes rem

/-- One produced URL: `f"/{code}/" + (f"{remainder}/" if remainder else "")`. -/
def languageUrl (code rem : List Char) : List Char :=
  '/' :: (code ++ '/' :: (if rem = [] then [] else rem ++ ['/']))

/-- Embeds `_language_paths(request)`: for every configured language code, in
configuration order, the localized URL of the current path. -/
def languagePaths (langs : List (List Char)) (path : List Char) : List (List Char × List Char) :=
  langs.map (fun code => (code, languageUrl code (remainderOf langs path)))

/-- Transcription of the claimed algorithm for `language_urls`, read
literally: strip A (single) leading slash, split on the first remaining
slash into `[first_segment, rest]` (with `rest` empty when there is no
slash), take `rest` as remainder when `first_segment` is a configured
language code and the whole trimmed path otherwise, strip surrounding
slashes, and build `/{code}/{remainder}/` or `/{code}/`.  Kept separate
from `remainderOf` so the two can be compared. -/
def claimRemainderOneSlash (langs : List (List Char)) (path : List Char) : List Char :=
  let trimmed := match path with
    | '/' :: t => t
    | t => t
  let first := trimmed.takeWhile (fun c => !(c == '/'))
  let rest := (trimmed.dropWhile (fun c => !(c == '/'))).tail
  stripSlashes (if first ∈ langs then rest else trimmed)

/-- The URL map built from `claimRemainderOneSlash`. -/
def claimLanguagePathsOneSlash (langs : List (List Char)) (path : List Char) :
    List (List Char × List Char) :=
  langs.map (fun code => (code, languageUrl code (claimRemainderOneSlash langs path)))

/-- Transcription of the claimed algorithm with its slash handling amended to
the source's `lstrip("/")`: strip ALL leading slashes, then proceed exactly
as the claim describes. -/
def claimRemainder (langs : List (List Char)) (path : List Char) : List Char :=
  let trimmed := lstripSlashes path
  let first := trimmed.takeWhile (fun c => !(c == '/'))
  let rest := (trimmed.dropWhile (fun c => !(c == '/'))).tail
  stripSlashes (if first ∈ langs then rest else trimmed)

/-- The URL map built from `claimRemainder`. -/
def claimLanguagePaths (langs : List (List Char)) (path : List Char) :
    List (List Char × List Char) :=
  langs.map (fun code => (code, languageUrl code (claimRemainder langs path)))

/-! Basic lemmas about the path helpers. -/

theorem lstripSlashes_cons_of_ne (c : Char) (l : List Char) (h : ¬c = '/') :
    lstripSlashes (c :: l) = c :: l := by
  simp [lstripSlashes, List.dropWhile_cons, isSlash, h]

theorem lstripSlashes_append_of_head_ne (a : Char) (l t : List Char) (h : ¬a = '/') :
    lstripSlashes (a :: l ++ t) = a :: l ++ t := by
  simpa using lstripSlashes_cons_of_ne a (l ++ t) h

theorem splitFirst_append_slash (a b : List Char) (h : '/' ∉ a) :
    splitFirst (a ++ '/' :: b) = (a, some b) := by
  induction a with
  | nil => simp [splitFirst]
  | cons c cs ih =>
    have hc : ¬c = '/' := by
      intro hc; exact h (by simp [hc])
    have hcs : '/' ∉ cs := fun hm => h (by simp [hm])
    simp [splitFirst, hc, ih hcs]

theorem splitFirst_no_slash (a : List Char) (h : '/' ∉ a) :
    splitFirst a = (a, none) := by
  induction a with
  | nil => simp [splitFirst]
  | cons c cs ih =>
    have hc : ¬c = '/' := by
      intro hc; exact h (by simp [hc])
    have hcs : '/' ∉ cs := fun hm => h (by simp [hm])
    simp [splitFirst, hc, ih hcs]

theorem rstripSlashes_append_slash (l : List Char) :
    rstripSlashes (l ++ ['/']) = rstripSlashes l := by
  simp [rstripSlashes, List.dropWhile_cons, isSlash]

theorem stripSlashes_append_slash (l : List Char) :
    stripSlashes (l ++ ['/']) = stripSlashes l := by
  simp [stripSlashes, rstripSlashes_append_slash]

theorem dropWhile_head_not (p : Char → Bool) (l : List Char) (a : Char)
    (h : (l.dropWhile p).head? = some a) : p a = false := by
  induction l with
  | nil => simp [List.dropWhile] at h
  | cons c cs ih =>
    by_cases hc : p c
    · rw [List.dropWhile_cons, if_pos hc] at h
      exact ih h
    · rw [List.dropWhile_cons, if_neg hc] at h
      simp at h
      simpa [h] using hc

theorem lstripSlashes_of_head_not (l : List Char)
    (h : ∀ a, l.head? = some a → ¬a = '/') : lstripSlashes l = l := by
  cases l with
  | nil => rfl
  | cons c cs => exact lstripSlashes_cons_of_ne c cs (h c rfl)

theorem lstripSlashes_idem (l : List Char) :
    lstripSlashes (lstripSlashes l) = lstripSlashes l := by
  apply lstripSlashes_of_head_not
  intro a ha
  have := dropWhile_head_not isSlash l a ha
  simpa [isSlash] using this

theorem rstripSlashes_prefix (l : List Char) :
    ∃ t, rstripSlashes l ++ t = l := by
  obtain ⟨t, ht⟩ := List.dropWhile_suffix (l := l.reverse) isSlash
  refine ⟨t.reverse, ?_⟩
  have := congrArg List.reverse ht
  simpa [rstripSlashes] using this

theorem rstripSlashes_getLast_not (l : List Char) (a : Char)
    (h : (rstripSlashes l).getLast? = some a) : ¬a = '/' := by
  have h' : (l.reverse.dropWhile isSlash).head? = some a := by
    have := h
    rw [rstripSlashes, List.getLast?_reverse] at this
    exact this
  have := dropWhile_head_not isSlash l.reverse a h'
  simpa [isSlash] using this

theorem rstripSlashes_of_getLast_not (l : List Char)
    (h : ∀ a, l.getLast? = some a → ¬a = '/') : rstripSlashes l = l := by
  have h' : ∀ a, l.reverse.head? = some a → ¬a = '/' := by
    intro a ha
    exact h a (by simpa [List.getLast?_reverse] using ha)
  have : l.reverse.dropWhile isSlash = l.reverse := by
    cases hrev : l.reverse with
    | nil => simp
    | cons c cs =>
      have hc : ¬c = '/' := h' c (by simp [hrev])
      simp [List.dropWhile_cons, isSlash, hc]
  simp [rstripSlashes, this]

theorem stripSlashes_head_not (l : List Char) (a : Char)
    (h : (stripSlashes l).head? = some a) : ¬a = '/' := by
  have := dropWhile_head_not isSlash (rstripSlashes l) (a := a) (by simpa [stripSlashes, lstripSlashes] using h)
  simpa [isSlash] using this

theorem lstripSlashes_getLast_not (l : List Char) (a : Char)
    (h : (lstripSlashes l).getLast? = some a) (hl : ∀ b, l.getLast? = some b → ¬b = '/') :
    ¬a = '/' := by
  obtain ⟨t, ht⟩ := List.dropWhile_suffix (l := l) isSlash
  have hcons : (lstripSlashes l) ≠ [] := by
    intro hnil
    rw [hnil] at h
    simp at h
  have : l.getLast? = some a := by
    rw [← ht, List.getLast?_append_of_ne_nil t (by simpa [lstripSlashes] using hcons)]
    simpa [lstripSlashes] using h
  exact hl a this

theorem stripSlashes_getLast_not (l : List Char) (a : Char)
    (h : (stripSlashes l).getLast? = some a) : ¬a = '/' := by
  have hr : ∀ b, (rstripSlashes l).getLast? = some b → ¬b = '/' :=
    fun b hb => rstripSlashes_getLast_not l b hb
  exact lstripSlashes_getLast_not (rstripSlashes l) a h hr

theorem stripSlashes_idem (l : List Char) :
    stripSlashes (stripSlashes l) = stripSlashes l := by
  have h1 : rstripSlashes (stripSlashes l) = stripSlashes l :=
    rstripSlashes_of_getLast_not _ (fun a ha => stripSlashes_getLast_not l a ha)
  have h2 : lstripSlashes (stripSlashes l) = stripSlashes l :=
    lstripSlashes_of_head_not _ (fun a ha => stripSlashes_head_not l a ha)
  rw [stripSlashes, h1, h2]

theorem stripSlashes_stripSlashes_append_slash (l : List Char) :
    stripSlashes (stripSlashes l ++ ['/']) = stripSlashes l := by
  rw [stripSlashes_append_slash, stripSlashes_idem]

theorem splitFirst_fst (l : List Char) :
    (splitFirst l).1 = l.takeWhile (fun c => !(c == '/')) := by
  induction l with
  | nil => rfl
  | cons c cs ih =>
    by_cases hc : c = '/'
    · simp [splitFirst, hc, List.takeWhile_cons]
    · simp [splitFirst, hc, List.takeWhile_cons, ih]

theorem splitFirst_snd_getD (l : List Char) :
    (splitFirst l).2.getD [] = (l.dropWhile (fun c => !(c == '/'))).tail := by
  induction l with
  | nil => rfl
  | cons c cs ih =>
    by_cases hc : c = '/'
    · simp [splitFirst, hc, List.dropWhile_cons]
    · simp [splitFirst, hc, List.dropWhile_cons, ih]

theorem remainderOf_eq_claimRemainder (langs : List (List Char)) (path : List Char) :
    remainderOf langs path = claimRemainder langs path := by
  have core : ∀ trimmed : List Char,
      stripSlashes
          (if trimmed ≠ [] ∧ (splitFirst trimmed).1 ∈ langs then (splitFirst trimmed).2.getD []
           else trimmed) =
        stripSlashes
          (if trimmed.takeWhile (fun c => !(c == '/')) ∈ langs then
            (trimmed.dropWhile (fun c => !(c == '/'))).tail
           else trimmed) := by
    intro trimmed
    by_cases ht : trimmed = []
    · subst ht
      by_cases hmem : ([] : List Char) ∈ langs <;> simp [hmem]
    · rw [splitFirst_fst, splitFirst_snd_getD]
      simp [ht]
  have hpth : lstripSlashes (if path = [] then ['/'] else path) = lstripSlashes path := by
    by_cases hp : path = []
    · rw [if_pos hp, hp]
      decide
    · rw [if_neg hp]
  simp only [remainderOf, claimRemainder, hpth]
  exact core (lstripSlashes path)

theorem remainderOf_lang_prefix (langs : List (List Char)) (c t : List Char)
    (hc : c ∈ langs) (hne : c ≠ []) (hns : '/' ∉ c) :
    remainderOf langs ('/' :: (c ++ '/' :: t)) = stripSlashes t := by
  obtain ⟨a, cs, rfl⟩ := List.exists_cons_of_ne_nil hne
  have ha : ¬a = '/' := by
    intro h; exact hns (by simp [h])
  have htrim : lstripSlashes ('/' :: (a :: cs ++ '/' :: t)) = a :: cs ++ '/' :: t := by
    rw [lstripSlashes, List.dropWhile_cons, if_pos (by simp [isSlash])]
    exact lstripSlashes_append_of_head_ne a cs ('/' :: t) ha
  have hsplit : splitFirst (a :: cs ++ '/' :: t) = (a :: cs, some t) :=
    splitFirst_append_slash (a :: cs) t hns
  simp only [remainderOf, if_neg (by simp : ¬('/' :: (a :: cs ++ '/' :: t) = [])), htrim, hsplit]
  simp [hc]

theorem remainderOf_stripped (langs : List (List Char)) (path : List Char) :
    stripSlashes (remainderOf langs path) = remainderOf langs path := by
  simp only [remainderOf]
  exact stripSlashes_idem _

/-- C4 (amended): for every request path and configured language-code list,
`language_urls` follows the claimed algorithm with leading slashes (plural,
as `lstrip("/")` does) removed before splitting; in particular
`/en/menu-item/` with languages `en`, `fa` maps to `/en/menu-item/` and
`/fa/menu-item/`, and `/en/` maps to `/en/` and `/fa/`. -/
theorem languagePaths_follows_claimed_algorithm (langs : List (List Char)) (path : List Char) :
    languagePaths langs path = claimLanguagePaths langs path ∧
      languagePaths ["en".data, "fa".data] "/en/menu-item/".data =
        [("en".data, "/en/menu-item/".data), ("fa".data, "/fa/menu-item/".data)] ∧
      languagePaths ["en".data, "fa".data] "/en/".data =
        [("en".data, "/en/".data), ("fa".data, "/fa/".data)] := by
  refine ⟨?_, by decide, by decide⟩
  simp only [languagePaths, claimLanguagePaths, remainderOf_eq_claimRemainder]

/-- C4 (counterexample): on the request path `//en/menu-item/` the source's
`lstrip("/")` removes both leading slashes and recognises `en` as the
language prefix, while the claim's "stripping a leading slash" (one slash)
leaves an empty first segment, so the two algorithms disagree. -/
theorem languagePaths_one_slash_counterexample :
    languagePaths ["en".data, "fa".data] "//en/menu-item/".data ≠
      claimLanguagePathsOneSlash ["en".data, "fa".data] "//en/menu-item/".data := by
  decide

/-- C10: the language-URL map ignores which configured language prefixes the
path — `/{c1}/{r}/` and `/{c2}/{r}/` give identical maps — and feeding any
URL the map produces back into the computation reproduces the same map,
provided every configured code is non-empty and slash-free. -/
theorem languagePaths_lang_invariance (langs : List (List Char)) (path r c1 c2 : List Char)
    (hlangs : ∀ c ∈ langs, c ≠ [] ∧ '/' ∉ c) (h1 : c1 ∈ langs) (h2 : c2 ∈ langs) :
    languagePaths langs ('/' :: (c1 ++ '/' :: (r ++ ['/']))) =
        languagePaths langs ('/' :: (c2 ++ '/' :: (r ++ ['/']))) ∧
      ∀ p ∈ languagePaths langs path, languagePaths langs p.2 = languagePaths langs path := by
  constructor
  · have e1 := remainderOf_lang_prefix langs c1 (r ++ ['/']) h1 (hlangs c1 h1).1 (hlangs c1 h1).2
    have e2 := remainderOf_lang_prefix langs c2 (r ++ ['/']) h2 (hlangs c2 h2).1 (hlangs c2 h2).2
    simp only [languagePaths, e1, e2]
  · intro p hp
    simp only [languagePaths, List.mem_map] at hp
    obtain ⟨code, hcode, rfl⟩ := hp
    have hcne := (hlangs code hcode).1
    have hcns := (hlangs code hcode).2
    have hurl : remainderOf langs (languageUrl code (remainderOf langs path)) =
        remainderOf langs path := by
      by_cases hrem : remainderOf langs path = []
      · rw [languageUrl, if_pos hrem,
          remainderOf_lang_prefix langs code [] hcode hcne hcns]
        simpa [stripSlashes, lstripSlashes, rstripSlashes] using hrem.symm
      · rw [languageUrl, if_neg hrem,
          remainderOf_lang_prefix langs code (remainderOf langs path ++ ['/']) hcode hcne hcns,
          stripSlashes_append_slash, remainderOf_stripped]
    simp only [languagePaths, hurl]

/-- C10 witness: with languages `en` and `fa`, `/en/menu-item/` and
`/fa/menu-item/` produce the same language-URL map. -/
theorem languagePaths_lang_invariance_witness :
    languagePaths ["en".data, "fa".data] ('/' :: ("en".data ++ '/' :: ("menu-item".data ++ ['/']))) =
      languagePaths ["en".data, "fa".data] ('/' :: ("fa".data ++ '/' :: ("menu-item".data ++ ['/']))) :=
  (languagePaths_lang_invariance ["en".data, "fa".data] "/".data "menu-item".data
    "en".data "fa".data (by decide) (by decide) (by decide)).1

/-! Translatable fields, embedding `TranslatableFieldsMixin.translate`
from `menu/models.py`. -/

/-- Primary subtag of a language code: Python `lang.split("-")[0]`. -/
def primarySubtag (s : String) : String := String.mk (s.data.takeWhile (fun c => !(c == '-')))

/-- Embeds Python `a or b` for an optional string `a` (an absent attribute
reads as `None` through `getattr(self, f, None)`): the right operand is used
when the left is missing or empty. -/
def pyOrStr (a : Option String) (b : String) : String :=
  match a with
  | some v => if v = "" then b else v
  | none => b

/-- Attribute lookup over an entity modelled as an association list of
string-valued translatable fields: `getattr(entity, name, default)` with a
`none` default. -/
def getattrStr (fields : List (String × String)) (name : String) : Option String :=
  (fields.find? (fun p => p.1 == name)).map (fun p => p.2)

/-- Embeds `translation.get_language() or "en"`: the active language, with
`None` (and an empty code, which Python's `or` also replaces) defaulting to
`"en"`. -/
def effectiveLanguage (activeLang : Option String) : String :=
  match activeLang with
  | none => "en"
  | some s => if s = "" then "en" else s

/-- Embeds `TranslatableFieldsMixin.translate`: resolve `{fieldPre}_{lang}`,
`lang` being the primary subtag of the active language, and fall back to
`{fieldPre}_en` (read as `""` when absent) when the preferred field is
missing or empty. -/
def translate (fields : List (String × String)) (activeLang : Option String)
    (fieldPre : String) : String :=
  let lang := primarySubtag (effectiveLanguage activeLang)
  let preferredField := fieldPre ++ "_" ++ lang
  let fallbackField := fieldPre ++ "_en"
  pyOrStr (getattrStr fields preferredField) ((getattrStr fields fallbackField).getD "")

/-- C5: `translate` returns the `{fieldPre}_{lang}` field, `lang` being the
primary subtag of the active language (defaulting to `en`); when that field
is absent or empty it returns the `{fieldPre}_en` field instead. -/
theorem translate_spec (fields : List (String × String)) (activeLang : Option String)
    (fieldPre : String) :
    (∀ v, getattrStr fields
          (fieldPre ++ "_" ++ primarySubtag (effectiveLanguage activeLang)) = some v →
        v ≠ "" → translate fields activeLang fieldPre = v) ∧
    ((getattrStr fields
          (fieldPre ++ "_" ++ primarySubtag (effectiveLanguage activeLang)) = none ∨
        getattrStr fields
          (fieldPre ++ "_" ++ primarySubtag (effectiveLanguage activeLang)) = some "") →
      ∀ w, getattrStr fields (fieldPre ++ "_en") = some w →
        translate fields activeLang fieldPre = w) := by
  constructor
  · intro v hv hne
    simp [translate, hv, pyOrStr, hne]
  · rintro (h | h) w hw <;> simp [translate, h, hw, pyOrStr]

/-- C5 witness: with `title_en = "Coffee"` and `title_fa = ""`,
`translate("title")` returns `"Coffee"` under active language `fa` (the
fallback) and under active language `en` (the direct hit). -/
theorem translate_spec_witness :
    translate [("title_en", "Coffee"), ("title_fa", "")] (some "fa") "title" = "Coffee" ∧
      translate [("title_en", "Coffee"), ("title_fa", "")] (some "en") "title" = "Coffee" :=
  ⟨(translate_spec [("title_en", "Coffee"), ("title_fa", "")] (some "fa") "title").2
      (Or.inr (by decide)) "Coffee" (by decide),
   (translate_spec [("title_en", "Coffee"), ("title_fa", "")] (some "en") "title").1
      "Coffee" (by decide) (by decide)⟩

/-! Data model, embedding the entities of `menu/models.py`.  Rows carry an
explicit `id : Nat` primary key; default field values follow the Django
field declarations. -/

structure MenuCategory where
  id : Nat := 0
  title_en : String := ""
  title_fa : String := ""
  description_en : String := ""
  description_fa : String := ""
  cover_image : Option String := none
  display_order : Nat := 0
  is_active : Bool := true
deriving DecidableEq

structure MenuItem where
  id : Nat := 0
  category : Nat := 0
  name_en : String := ""
  name_fa : String := ""
  slug : String := ""
  description_en : String := ""
  description_fa : String := ""
  price : Int := 0
  currency : String := "IRR"
  image : Option String := none
  is_signature : Bool := false
  is_available : Bool := true
  calories : Option Nat := none
  preparation_time : String := ""
  highlight_badge_en : String := ""
  highlight_badge_fa : String := ""
  rating : Option Int := none
deriving DecidableEq

structure SiteSetting where
  id : Nat := 0
  site_name_en : String := ""
  site_name_fa : String := ""
  site_logo : Option String := none
  site_favicon : Option String := none
  hero_headline_en : String := ""
  hero_headline_fa : String := ""
  hero_subtitle_en : String := ""
  hero_subtitle_fa : String := ""
  contact_email : String := ""
  contact_phone : String := ""
  contact_whatsapp : String := ""
  address_en : String := ""
  address_fa : String := ""
  opening_hours : String := "08:00 - 23:00"
  footer_text_en : String := ""
  footer_text_fa : String := ""
  footer_links : List String := []
  social_links : List (String × String) := []
  seo_description_en : String := ""
  seo_description_fa : String := ""
deriving DecidableEq

structure MenuDB where
  siteSettings : List SiteSetting := []
  categories : List MenuCategory := []
  items : List MenuItem := []
deriving DecidableEq

/-- Embeds the two validator stacks declared on `MenuItem` in
`menu/models.py`: `MinValueValidator(Decimal("0.00"))` on `price`
(hundredths, so `0.00 = 0`) and `MinValueValidator(Decimal("0.0"))` with
`MaxValueValidator(Decimal("5.0"))` on the optional `rating` (tenths, so
`5.0 = 50`; a null rating is not validated). -/
def validateMenuItem (it : MenuItem) : Bool :=
  decide (0 ≤ it.price) &&
    (match it.rating with
      | none => true
      | some r => decide (0 ≤ r) && decide (r ≤ 50))

/-- Characters Django's `slugify` keeps before separator collapsing. -/
def slugKeep (c : Char) : Bool := c.isAlphanum || c == '_' || c == ' ' || c == '-'

/-- Separator characters collapsed to a single hyphen by `slugify`. -/
def slugSep (c : Char) : Bool := c == ' ' || c == '-'

/-- Collapses every maximal run of spaces/hyphens into one hyphen. -/
def collapseSep : List Char → List Char
  | [] => []
  | [c] => if slugSep c then ['-'] else [c]
  | c :: d :: cs =>
    if slugSep c then
      if slugSep d then collapseSep (d :: cs)
      else '-' :: collapseSep (d :: cs)
    else c :: collapseSep (d :: cs)

/-- Strips leading and trailing hyphens/underscores. -/
def stripDashUnderscore (l : List Char) : List Char :=
  ((l.dropWhile (fun c => c == '-' || c == '_')).reverse.dropWhile
      (fun c => c == '-' || c == '_')).reverse

/-- Modelled from the spec: "auto-derived from `name_en` via slugification".
Django's `slugify` lives in the framework, outside this repository: it
lower-cases, drops characters other than alphanumerics, underscores, spaces
and hyphens, collapses space/hyphen runs into one hyphen, and strips
leading/trailing hyphens and underscores.  The slug theorems below depend
only on `slugify` being a function of `name_en`. -/
def slugify (s : String) : String :=
  String.mk (stripDashUnderscore (collapseSep ((s.data.map Char.toLower).filter slugKeep)))

/-- Embeds the instance-level `MenuItem.save` override: `if not self.slug:
self.slug = slugify(self.name_en)` before the row is written. -/
def MenuItem.save (it : MenuItem) : MenuItem :=
  if it.slug = "" then { it with slug := slugify it.name_en } else it

/-- Row save within one table: replaces the row carrying the same primary
key, or appends the row when the key is new. -/
def upsertBy {α : Type} (key : α → Nat) (rows : List α) (r : α) : List α :=
  if rows.any (fun x => key x == key r) then
    rows.map (fun x => if key x == key r then r else x)
  else rows ++ [r]

/-- Embeds the admin write path for a `MenuItem`: the model form runs the
declared field validators first and, on a validation error, rejects the
save with the database untouched; otherwise `MenuItem.save` runs (deriving
the slug) and the row is written.  Returns the resulting database and
whether the save succeeded. -/
def adminSaveMenuItem (it : MenuItem) (db : MenuDB) : MenuDB × Bool :=
  if validateMenuItem it then
    ({ db with items := upsertBy MenuItem.id db.items it.save }, true)
  else (db, false)

/-- C1: persisting a `MenuItem` whose price is below 0.00, or whose rating
is set and outside [0.0, 5.0], fails validation and leaves the database
unchanged — no row is created or modified — while price ≥ 0.00 with
rating = 5.0 passes these checks.  (Hundredths for price, tenths for
rating.) -/
theorem menuItem_validation_spec (it : MenuItem) (db : MenuDB) :
    ((it.price < 0 ∨ ∃ r, it.rating = some r ∧ (r < 0 ∨ 50 < r)) →
      adminSaveMenuItem it db = (db, false)) ∧
    (0 ≤ it.price ∧ it.rating = some 50 → validateMenuItem it = true) := by
  constructor
  · intro h
    have hv : validateMenuItem it = false := by
      rcases h with hp | ⟨r, hr, hout⟩
      · have : ¬(0 ≤ it.price) := not_le.mpr hp
        simp [validateMenuItem, this]
      · rcases hout with hlt | hgt
        · have : ¬(0 ≤ r) := not_le.mpr hlt
          simp [validateMenuItem, hr, this]
        · have : ¬(r ≤ 50) := not_le.mpr hgt
          simp [validateMenuItem, hr, this]
    simp [adminSaveMenuItem, hv]
  · rintro ⟨hp, hr⟩
    simp [validateMenuItem, hp, hr]

/-- C1 witness: price `-1.00` is rejected without touching the database,
rating `5.1` likewise, and price `0.00` with rating `5.0` passes the
checks. -/
theorem menuItem_validation_spec_witness :
    adminSaveMenuItem { price := -100 } { } = ({ }, false) ∧
      adminSaveMenuItem { rating := some 51 } { } = ({ }, false) ∧
      validateMenuItem { price := 0, rating := some 50 } = true :=
  ⟨(menuItem_validation_spec { price := -100 } { }).1 (Or.inl (by decide)),
   (menuItem_validation_spec { rating := some 51 } { }).1
      (Or.inr ⟨51, rfl, Or.inr (by decide)⟩),
   (menuItem_validation_spec { price := 0, rating := some 50 } { }).2 ⟨by decide, rfl⟩⟩

/-- C6: saving a `MenuItem` with a blank slug sets it to the slugification
of `name_en`, and a non-empty slug — explicitly set or previously derived —
is never changed by any number of subsequent saves. -/
theorem menuItem_slug_spec (it : MenuItem) :
    (it.slug = "" → (MenuItem.save it).slug = slugify it.name_en) ∧
    (it.slug ≠ "" → ∀ n : Nat, (MenuItem.save^[n] it).slug = it.slug) := by
  constructor
  · intro h
    simp [MenuItem.save, h]
  · intro h n
    induction n with
    | zero => simp
    | succ k ih =>
      rw [Function.iterate_succ_apply']
      simp [MenuItem.save, ih, h]

/-- C6 witness: a blank-slug item named "Iced Latte" saves with slug
`iced-latte`, and an explicit slug survives three further saves. -/
theorem menuItem_slug_spec_witness :
    (MenuItem.save { name_en := "Iced Latte" }).slug = "iced-latte" ∧
      (MenuItem.save^[3] { slug := "custom-slug" }).slug = "custom-slug" := by
  constructor
  · rw [(menuItem_slug_spec { name_en := "Iced Latte" }).1 rfl]
    decide
  · exact (menuItem_slug_spec { slug := "custom-slug" }).2 (by decide) 3

/-! Public home page, embedding `HomePageView.get_context_data` from
`menu/views.py`. -/

/-- Row order of `.order_by("display_order")`. -/
def catRel (a b : MenuCategory) : Prop := a.display_order ≤ b.display_order

instance : DecidableRel catRel := fun a b =>
  inferInstanceAs (Decidable (a.display_order ≤ b.display_order))

instance : IsTotal MenuCategory catRel :=
  ⟨fun a b => Nat.le_total a.display_order b.display_order⟩

instance : IsTrans MenuCategory catRel :=
  ⟨fun _ _ _ => Nat.le_trans⟩

/-- Sort key for the descending `is_signature` column: signature rows sort
before non-signature rows. -/
def sigKey (i : MenuItem) : Nat := if i.is_signature then 0 else 1

/-- Row order of `.order_by("-is_signature", "name_en")`: signature items
first, then English name ascending. -/
def itemRel (a b : MenuItem) : Prop :=
  sigKey a < sigKey b ∨ (sigKey a = sigKey b ∧ a.name_en.data ≤ b.name_en.data)

instance : DecidableRel itemRel := fun a b =>
  inferInstanceAs
    (Decidable (sigKey a < sigKey b ∨ (sigKey a = sigKey b ∧ a.name_en.data ≤ b.name_en.data)))

instance : IsTotal MenuItem itemRel := by
  constructor
  intro a b
  rcases Nat.lt_trichotomy (sigKey a) (sigKey b) with h | h | h
  · exact Or.inl (Or.inl h)
  · rcases le_total a.name_en.data b.name_en.data with hn | hn
    · exact Or.inl (Or.inr ⟨h, hn⟩)
    · exact Or.inr (Or.inr ⟨h.symm, hn⟩)
  · exact Or.inr (Or.inl h)

instance : IsTrans MenuItem itemRel := by
  constructor
  intro a b c hab hbc
  rcases hab with h1 | ⟨e1, n1⟩ <;> rcases hbc with h2 | ⟨e2, n2⟩
  · exact Or.inl (Nat.lt_trans h1 h2)
  · exact Or.inl (e2 ▸ h1)
  · exact Or.inl (e1 ▸ h2)
  · exact Or.inr ⟨e1.trans e2, le_trans n1 n2⟩

/-- Embeds the prefetched per-category item queryset of the home view:
`MenuItem.objects.filter(is_available=True).order_by("-is_signature",
"name_en")` restricted to the rows related to category `c`. -/
def availableItemsOf (db : MenuDB) (c : MenuCategory) : List MenuItem :=
  List.insertionSort itemRel
    (db.items.filter (fun i => i.category == c.id && i.is_available))

/-- Embeds the `categories` context entry:
`MenuCategory.objects.filter(is_active=True)` with the item prefetch,
ordered by `display_order`, each category paired with its attached
available items. -/
def homeCategories (db : MenuDB) : List (MenuCategory × List MenuItem) :=
  (List.insertionSort catRel (db.categories.filter (fun c => c.is_active))).map
    (fun c => (c, availableItemsOf db c))

/-- Embeds the `signature_items` context entry: the generator over the
fetched categories and their attached items filtered to signature items,
cut to four entries by `islice(·, 4)`. -/
def signatureItems (db : MenuDB) : List MenuItem :=
  (((homeCategories db).flatMap (fun p => p.2)).filter (fun i => i.is_signature)).take 4

theorem homeCategories_map_fst (db : MenuDB) :
    (homeCategories db).map Prod.fst =
      List.insertionSort catRel (db.categories.filter (fun c => c.is_active)) := by
  simp [homeCategories, List.map_map, Function.comp_def]

theorem mem_homeCategories (db : MenuDB) (p : MenuCategory × List MenuItem)
    (hp : p ∈ homeCategories db) :
    p.1.is_active = true ∧
    p.2.Perm (db.items.filter (fun i => i.category == p.1.id && i.is_available)) ∧
    List.Pairwise itemRel p.2 ∧
    ∀ i ∈ p.2, i.is_available = true := by
  simp only [homeCategories, List.mem_map] at hp
  obtain ⟨c, hc, rfl⟩ := hp
  have hc' : c ∈ db.categories.filter (fun c => c.is_active) :=
    (List.perm_insertionSort catRel _).subset hc
  refine ⟨(List.mem_filter.mp hc').2, List.perm_insertionSort itemRel _,
    List.sorted_insertionSort itemRel _, ?_⟩
  intro i hi
  have hmem := (List.perm_insertionSort itemRel _).subset hi
  have h2 := (List.mem_filter.mp hmem).2
  simp only [Bool.and_eq_true] at h2
  exact h2.2

/-- C2: the home context holds exactly the active categories, ordered by
`display_order` ascending, each carrying exactly its available items
ordered signature-first then by English name; inactive categories and
unavailable items never appear. -/
theorem homeCategories_spec (db : MenuDB) :
    ((homeCategories db).map Prod.fst).Perm (db.categories.filter (fun c => c.is_active)) ∧
    List.Pairwise
        (fun p q : MenuCategory × List MenuItem => p.1.display_order ≤ q.1.display_order)
        (homeCategories db) ∧
    ∀ p ∈ homeCategories db,
      p.1.is_active = true ∧
      p.2.Perm (db.items.filter (fun i => i.category == p.1.id && i.is_available)) ∧
      List.Pairwise itemRel p.2 ∧
      ∀ i ∈ p.2, i.is_available = true := by
  refine ⟨?_, ?_, fun p hp => mem_homeCategories db p hp⟩
  · rw [homeCategories_map_fst]
    exact List.perm_insertionSort catRel _
  · have hs := List.sorted_insertionSort catRel (db.categories.filter (fun c => c.is_active))
    simp only [homeCategories]
    exact List.pairwise_map.mpr hs

/-- C3: `signature_items` is the prefix of the category-then-item iteration
of the fetched available items restricted to signature items, of length
exactly `min 4` the number of such items, and every entry is a signature
item and available. -/
theorem signatureItems_spec (db : MenuDB) :
    (∃ t, signatureItems db ++ t =
        ((homeCategories db).flatMap (fun p => p.2)).filter (fun i => i.is_signature)) ∧
    (signatureItems db).length =
      min 4 ((((homeCategories db).flatMap (fun p => p.2)).filter
        (fun i => i.is_signature)).length) ∧
    ∀ i ∈ signatureItems db, i.is_signature = true ∧ i.is_available = true := by
  refine ⟨⟨(((homeCategories db).flatMap (fun p => p.2)).filter
      (fun i => i.is_signature)).drop 4, ?_⟩, ?_, ?_⟩
  · simp only [signatureItems]
    exact List.take_append_drop 4 _
  · simp [signatureItems]
  · intro i hi
    have hmem : i ∈ ((homeCategories db).flatMap (fun p => p.2)).filter
        (fun i => i.is_signature) := by
      have : signatureItems db ⊆ ((homeCategories db).flatMap (fun p => p.2)).filter
          (fun i => i.is_signature) := by
        intro x hx
        have := List.take_append_drop 4 (((homeCategories db).flatMap (fun p => p.2)).filter
          (fun i => i.is_signature))
        rw [← this]
        exact List.mem_append_left _ hx
      exact this hi
    have hsig := (List.mem_filter.mp hmem).2
    have hflat := (List.mem_filter.mp hmem).1
    rw [List.mem_flatMap] at hflat
    obtain ⟨p, hp, hip⟩ := hflat
    have havail := (mem_homeCategories db p hp).2.2.2 i hip
    exact ⟨hsig, havail⟩

/-- Example database: two active categories holding a signature and a
non-signature item (plus one unavailable item), and an inactive category
with a signature item. -/
def exampleDb : MenuDB :=
  { categories :=
      [{ id := 1, title_en := "Coffee", display_order := 1 },
       { id := 2, title_en := "Desserts", display_order := 2 },
       { id := 3, title_en := "Hidden", display_order := 0, is_active := false }],
    items :=
      [{ id := 1, category := 1, name_en := "b", is_signature := true },
       { id := 2, category := 1, name_en := "a" },
       { id := 3, category := 2, name_en := "c", is_signature := true },
       { id := 4, category := 2, name_en := "d", is_available := false },
       { id := 5, category := 3, name_en := "e", is_signature := true }] }

/-- C2 witness: on `exampleDb` the fetched category list is a permutation
of the active rows, and evaluates to category 1 (items `b` before `a`,
signature first) then category 2 (only its available item), with the
inactive category and the unavailable item absent. -/
theorem homeCategories_spec_witness :
    ((homeCategories exampleDb).map Prod.fst).Perm
        (exampleDb.categories.filter (fun c => c.is_active)) ∧
      (homeCategories exampleDb).map (fun p => (p.1.id, p.2.map MenuItem.id)) =
        [(1, [1, 2]), (2, [3])] :=
  ⟨(homeCategories_spec exampleDb).1, by decide⟩

/-- Example database with six available signature items spread over two
active categories. -/
def exampleDb6 : MenuDB :=
  { categories :=
      [{ id := 1, display_order := 1 }, { id := 2, display_order := 2 }],
    items :=
      [{ id := 1, category := 1, name_en := "a", is_signature := true },
       { id := 2, category := 1, name_en := "b", is_signature := true },
       { id := 3, category := 1, name_en := "c", is_signature := true },
       { id := 4, category := 2, name_en := "d", is_signature := true },
       { id := 5, category := 2, name_en := "e", is_signature := true },
       { id := 6, category := 2, name_en := "f", is_signature := true },
       { id := 7, category := 2, name_en := "g" }] }

/-- C3 witness: with six available signature items across the active
categories, `signature_items` has length `min 4 6 = 4` and holds the first
four in category-then-item order. -/
theorem signatureItems_spec_witness :
    (signatureItems exampleDb6).length =
        min 4 ((((homeCategories exampleDb6).flatMap (fun p => p.2)).filter
          (fun i => i.is_signature)).length) ∧
      (signatureItems exampleDb6).map MenuItem.id = [1, 2, 3, 4] :=
  ⟨(signatureItems_spec exampleDb6).2.1, by decide⟩

/-! Process-wide cache and the write-path side effects, embedding the
`save`/`delete` overrides of `menu/models.py` and `global_settings` of
`menu/context_processors.py`. -/

/-- Cache key constant from `menu/models.py`. -/
def SITE_SETTINGS_CACHE_KEY : String := "menu.site_settings"

/-- The process-wide cache: association list from keys to the stored
`SiteSetting` value paired with the timeout passed to `cache.set`. -/
abbrev Cache := List (String × (SiteSetting × Nat))

/-- Embeds `cache.get(key)`. -/
def cacheGet (c : Cache) (k : String) : Option (SiteSetting × Nat) :=
  (c.find? (fun e => e.1 == k)).map (fun e => e.2)

/-- Embeds `cache.set(key, value, timeout)`. -/
def cacheSet (c : Cache) (k : String) (v : SiteSetting) (timeout : Nat) : Cache :=
  (k, v, timeout) :: c.filter (fun e => !(e.1 == k))

/-- Embeds `cache.delete(key)`. -/
def cacheDelete (c : Cache) (k : String) : Cache :=
  c.filter (fun e => !(e.1 == k))

/-- Whole application state: the relational store plus the cache. -/
structure AppState where
  db : MenuDB := { }
  cache : Cache := []
deriving DecidableEq

/-- Embeds `SiteSetting.save`: `super().save(...)` (the row write) followed
by `cache.delete(SITE_SETTINGS_CACHE_KEY)`. -/
def siteSettingSave (st : AppState) (s : SiteSetting) : AppState :=
  { db := { st.db with siteSettings := upsertBy SiteSetting.id st.db.siteSettings s },
    cache := cacheDelete st.cache SITE_SETTINGS_CACHE_KEY }

/-- Embeds `SiteSetting.delete`: the row delete followed by the same cache
invalidation. -/
def siteSettingDelete (st : AppState) (i : Nat) : AppState :=
  { db := { st.db with siteSettings := st.db.siteSettings.filter (fun s => !(s.id == i)) },
    cache := cacheDelete st.cache SITE_SETTINGS_CACHE_KEY }

/-- Embeds a `MenuCategory` save: the model defines no `save` override, so
only the row is written. -/
def menuCategorySave (st : AppState) (c : MenuCategory) : AppState :=
  { st with db := { st.db with categories := upsertBy MenuCategory.id st.db.categories c } }

/-- Embeds a `MenuCategory` delete with the `on_delete=CASCADE` removal of
its items; no override runs. -/
def menuCategoryDelete (st : AppState) (i : Nat) : AppState :=
  { st with db := { st.db with
      categories := st.db.categories.filter (fun c => !(c.id == i)),
      items := st.db.items.filter (fun it => !(it.category == i)) } }

/-- Embeds a `MenuItem` save through the admin (validators plus the slug
override); `MenuItem.save` performs no cache access. -/
def menuItemSave (st : AppState) (it : MenuItem) : AppState :=
  { st with db := (adminSaveMenuItem it st.db).1 }

/-- Embeds a `MenuItem` delete; the model defines no `delete` override. -/
def menuItemDelete (st : AppState) (i : Nat) : AppState :=
  { st with db := { st.db with items := st.db.items.filter (fun it => !(it.id == i)) } }

theorem cacheGet_cacheDelete_self (c : Cache) (k : String) :
    cacheGet (cacheDelete c k) k = none := by
  have : ∀ e ∈ c.filter (fun e => !(e.1 == k)), ¬(e.1 == k) = true := by
    intro e he
    have := (List.mem_filter.mp he).2
    simp at this
    simp [this]
  simp only [cacheGet, cacheDelete]
  rw [List.find?_eq_none.mpr this]
  rfl

theorem cacheGet_cacheDelete_other (c : Cache) (k k' : String) (h : k' ≠ k) :
    cacheGet (cacheDelete c k) k' = cacheGet c k' := by
  induction c with
  | nil => rfl
  | cons e t ih =>
    simp only [cacheDelete] at ih ⊢
    rw [List.filter_cons]
    by_cases he : e.1 = k
    · have h1 : (!(e.1 == k)) = false := by simp [he]
      have h2 : (e.1 == k') = false := by
        simp only [beq_eq_false_iff_ne, ne_eq, he]
        exact fun hh => h hh.symm
      rw [h1]
      simp only [Bool.false_eq_true, if_false]
      rw [ih]
      simp [cacheGet, List.find?_cons, h2]
    · have h1 : (!(e.1 == k)) = true := by simp [he]
      rw [h1, if_pos rfl]
      by_cases he' : e.1 = k'
      · have h2 : (e.1 == k') = true := by simp [he']
        simp [cacheGet, List.find?_cons, h2]
      · have h2 : (e.1 == k') = false := by simp [he']
        simp only [cacheGet, List.find?_cons, h2] at ih ⊢
        exact ih

theorem cacheGet_cacheSet_self (c : Cache) (k : String) (v : SiteSetting) (t : Nat) :
    cacheGet (cacheSet c k v t) k = some (v, t) := by
  simp [cacheGet, cacheSet, List.find?_cons]

/-- C7: every `SiteSetting` save and delete removes the cache entry keyed
`menu.site_settings` while touching no other key, and `MenuCategory` /
`MenuItem` saves and deletes leave the cache exactly as it was. -/
theorem cache_invalidation_spec (st : AppState) (s : SiteSetting) (i j k : Nat)
    (c : MenuCategory) (it : MenuItem) :
    cacheGet (siteSettingSave st s).cache SITE_SETTINGS_CACHE_KEY = none ∧
    cacheGet (siteSettingDelete st i).cache SITE_SETTINGS_CACHE_KEY = none ∧
    (∀ k' : String, k' ≠ SITE_SETTINGS_CACHE_KEY →
      cacheGet (siteSettingSave st s).cache k' = cacheGet st.cache k' ∧
      cacheGet (siteSettingDelete st i).cache k' = cacheGet st.cache k') ∧
    (menuCategorySave st c).cache = st.cache ∧
    (menuCategoryDelete st j).cache = st.cache ∧
    (menuItemSave st it).cache = st.cache ∧
    (menuItemDelete st k).cache = st.cache := by
  refine ⟨cacheGet_cacheDelete_self st.cache _, cacheGet_cacheDelete_self st.cache _,
    ?_, rfl, rfl, rfl, rfl⟩
  intro k' hk'
  exact ⟨cacheGet_cacheDelete_other st.cache _ k' hk',
    cacheGet_cacheDelete_other st.cache _ k' hk'⟩

/-- Example state whose cache holds the settings entry and one unrelated
key. -/
def exampleState : AppState :=
  { db := { }, cache := [(SITE_SETTINGS_CACHE_KEY, ({ }, 300)), ("other", ({ }, 60))] }

/-- C7 witness: on a populated cache, a `SiteSetting` save clears the
settings key but keeps the unrelated key, and a `MenuItem` save leaves the
cache untouched. -/
theorem cache_invalidation_spec_witness :
    cacheGet (siteSettingSave exampleState { }).cache SITE_SETTINGS_CACHE_KEY = none ∧
      cacheGet (siteSettingSave exampleState { }).cache "other" =
        cacheGet exampleState.cache "other" ∧
      (menuItemSave exampleState { }).cache = exampleState.cache :=
  ⟨(cache_invalidation_spec exampleState { } 0 0 0 { } { }).1,
   ((cache_invalidation_spec exampleState { } 0 0 0 { } { }).2.2.1 "other" (by decide)).1,
   (cache_invalidation_spec exampleState { } 0 0 0 { } { }).2.2.2.2.2.1⟩

/-- Embeds the settings half of `global_settings(request)` from
`menu/context_processors.py`: look the instance up in the cache; on a miss
read `SiteSetting.objects.first()`, fall back to the transient
`SiteSetting(site_name_en="Cafe Menu")` placeholder when no row exists,
and `cache.set(SITE_SETTINGS_CACHE_KEY, instance, 60 * 5)`.  Returns the
resolved instance together with the resulting state. -/
def global_settings (st : AppState) : SiteSetting × AppState :=
  match cacheGet st.cache SITE_SETTINGS_CACHE_KEY with
  | some v => (v.1, st)
  | none =>
    let inst := st.db.siteSettings.head?.getD { site_name_en := "Cafe Menu" }
    (inst, { st with cache := cacheSet st.cache SITE_SETTINGS_CACHE_KEY inst 300 })

/-- C9: on a cache miss, `global_settings` resolves the first `SiteSetting`
row; with no row at all it resolves a transient placeholder whose
`site_name_en` is `"Cafe Menu"` and whose other fields keep their
empty/default values; the database is not written either way, and the
resolved instance is stored under `menu.site_settings` with timeout 300. -/
theorem global_settings_spec (st : AppState)
    (hmiss : cacheGet st.cache SITE_SETTINGS_CACHE_KEY = none) :
    (∀ s rest, st.db.siteSettings = s :: rest → (global_settings st).1 = s) ∧
    (st.db.siteSettings = [] →
      (global_settings st).1 =
        { id := 0, site_name_en := "Cafe Menu", site_name_fa := "",
          site_logo := none, site_favicon := none,
          hero_headline_en := "", hero_headline_fa := "",
          hero_subtitle_en := "", hero_subtitle_fa := "",
          contact_email := "", contact_phone := "", contact_whatsapp := "",
          address_en := "", address_fa := "",
          opening_hours := "08:00 - 23:00",
          footer_text_en := "", footer_text_fa := "",
          footer_links := [], social_links := [],
          seo_description_en := "", seo_description_fa := "" }) ∧
    (global_settings st).2.db = st.db ∧
    cacheGet (global_settings st).2.cache SITE_SETTINGS_CACHE_KEY =
      some ((global_settings st).1, 300) := by
  refine ⟨?_, ?_, ?_, ?_⟩
  · intro s rest hrows
    simp [global_settings, hmiss, hrows]
  · intro hrows
    simp [global_settings, hmiss, hrows]
  · simp [global_settings, hmiss]
  · simp only [global_settings, hmiss]
    exact cacheGet_cacheSet_self st.cache _ _ _

/-- C9 witness: on the empty state (cache miss, no rows) the placeholder is
returned with every other field at its default, and the database component
is unchanged. -/
theorem global_settings_spec_witness :
    (global_settings { }).1 =
        { id := 0, site_name_en := "Cafe Menu", site_name_fa := "",
          site_logo := none, site_favicon := none,
          hero_headline_en := "", hero_headline_fa := "",
          hero_subtitle_en := "", hero_subtitle_fa := "",
          contact_email := "", contact_phone := "", contact_whatsapp := "",
          address_en := "", address_fa := "",
          opening_hours := "08:00 - 23:00",
          footer_text_en := "", footer_text_fa := "",
          footer_links := [], social_links := [],
          seo_description_en := "", seo_description_fa := "" } ∧
      (global_settings { }).2.db = ({ } : AppState).db :=
  ⟨(global_settings_spec { } rfl).2.1 rfl, (global_settings_spec { } rfl).2.2.1⟩

/-! Administrative interface, embedding `SiteSettingAdmin` from
`menu/admin.py`. -/

/-- Embeds `SiteSettingAdmin.has_add_permission(request)`: `False` as soon
as a `SiteSetting` row exists (`SiteSetting.objects.exists()`), otherwise
the framework's base `super().has_add_permission(request)` answer — whether
the request's user holds the add permission — passed here as `basePerm`. -/
def has_add_permission (db : MenuDB) (basePerm : Bool) : Bool :=
  if !db.siteSettings.isEmpty then false else basePerm

/-- C8 (counterexample): with zero `SiteSetting` records but a request
whose base add permission the framework denies, the add action is not
available, refuting "available if and only if zero records exist". -/
theorem has_add_permission_claim_counterexample :
    ¬((has_add_permission { } false = true) ↔ ({ } : MenuDB).siteSettings = []) := by
  decide

/-- C8 (amended): the add action is reported unavailable for every request
whenever a `SiteSetting` record exists, and with zero records it equals the
framework's base add permission for the request. -/
theorem has_add_permission_spec (db : MenuDB) (basePerm : Bool) :
    (db.siteSettings ≠ [] → has_add_permission db basePerm = false) ∧
    (db.siteSettings = [] → has_add_permission db basePerm = basePerm) := by
  constructor
  · intro h
    simp [has_add_permission, h]
  · intro h
    simp [has_add_permission, h]

/-- C8 witness: one existing record forces `False` even for a fully
privileged request; zero records defer to the base permission. -/
theorem has_add_permission_spec_witness :
    has_add_permission { siteSettings := [{ }] } true = false ∧
      has_add_permission { } true = true :=
  ⟨(has_add_permission_spec { siteSettings := [{ }] } true).1 (by decide),
   (has_add_permission_spec { } true).2 rfl⟩

end CafeMenu
